import Mathlib

/-!
Verification of the tpprl training core against its specification.

The development shallowly embeds the numerical computations of
`tpprl/exp_broadcaster.py` and `tpprl/exp_teacher.py`:
floating-point values become real numbers (`ℝ`) where the formulas use
`exp`/`log`/`tanh`, and exact rationals (`ℚ`) where only field arithmetic
and comparisons occur; tensors indexed over a batch or hidden dimension
become functions out of `Fin n`; Python assertions become `Option`/`Except`
results.  Each embedded definition carries a comment naming the source
construct it was translated from.
-/

namespace Tpprl

/-- Policy parameters of `ExpRecurrentTrainer` (exp_broadcaster.py lines
149-186): embedding matrix `Wm` (one row per embedded source index),
hidden-to-hidden matrix `Wh`, rank weight `Wr`, time-delta weight `Wt`,
hidden bias `Bh`, output projection `vt`, decay rate `wt` and output bias
`bt`.  The hidden dimension is `n`; `Wm` is total over `ℕ` since only
in-range rows are ever looked up. -/
structure TrainerParams (n : ℕ) where
  Wm : ℕ → Fin n → ℝ
  Wh : Fin n → Fin n → ℝ
  Wr : Fin n → ℝ
  Wt : Fin n → ℝ
  Bh : Fin n → ℝ
  vt : Fin n → ℝ
  wt : ℝ
  bt : ℝ

/-- `batch_u_theta` (exp_broadcaster.py lines 231-236), for one trajectory:
`u(δ) = exp(h·vt + wt·δ + bt)` at hidden state `h`. -/
noncomputable def u_theta {n : ℕ} (p : TrainerParams n) (h : Fin n → ℝ) (d : ℝ) : ℝ :=
  Real.exp ((∑ i, h i * p.vt i) + p.wt * d + p.bt)

/-- One step of the batched hidden-state recurrence
(exp_broadcaster.py lines 244-258, the `tf.nn.tanh(...)` branch):
`tanh(Wm[b] + h·Whᵀ + rank·Wr + Δ·Wt + Bh)`, componentwise. -/
noncomputable def hNext {n : ℕ} (p : TrainerParams n) (b : ℕ) (rank d : ℝ)
    (h : Fin n → ℝ) : Fin n → ℝ :=
  fun i =>
    Real.tanh (p.Wm b i + (∑ j, h j * p.Wh i j) + rank * p.Wr i + d * p.Wt i + p.Bh i)

/-- One trajectory of a padded batch as fed to the training graph
(`get_feed_dict`, exp_broadcaster.py lines 370-408): true event count
`seqLen`, and per-step padded tensors of embedded broadcaster index,
mean wall rank and inter-event time delta, plus the terminal
`last_interval`.  Positions at or beyond `seqLen` hold the zero padding
written by `get_feed_dict`. -/
structure BTraj where
  seqLen : ℕ
  bIdx : ℕ → ℕ
  rank : ℕ → ℝ
  tdelta : ℕ → ℝ
  lastInterval : ℝ

/-- Hidden state held in `tf_batch_h_t` after `k` iterations of the
unrolled event loop (exp_broadcaster.py lines 240-258) for one trajectory:
starts at the zero `tf_batch_init_h`; iteration `evt_idx = k` replaces it
by the tanh update when `k ≤ seq_len` (the source's `tf.where`
condition `evt_idx <= self.tf_batch_seq_len`, which is inclusive) and by
the zero state otherwise. -/
noncomputable def bH {n : ℕ} (p : TrainerParams n) (tr : BTraj) : ℕ → Fin n → ℝ
  | 0 => fun _ => 0
  | k + 1 =>
    if k ≤ tr.seqLen then hNext p (tr.bIdx k) (tr.rank k) (tr.tdelta k) (bH p tr k)
    else fun _ => 0

/-- Step `k` entry of `self.LL_log_terms` (exp_broadcaster.py lines
266-272): when the step is active (`k ≤ seq_len`) and its embedded
broadcaster index equals `sim_opts.src_id`, the log-intensity
`log u(Δ_k)` at the just-updated hidden state; otherwise zero. -/
noncomputable def bLogTerm {n : ℕ} (p : TrainerParams n) (srcId : ℕ) (tr : BTraj)
    (k : ℕ) : ℝ :=
  if k ≤ tr.seqLen then
    if tr.bIdx k = srcId then Real.log (u_theta p (bH p tr (k + 1)) (tr.tdelta k))
    else 0
  else 0

/-- Step `k` entry of `self.LL_int_terms` (exp_broadcaster.py lines
274-280): when active, `-(1/wt)·(u(0) - u(Δ_k))` at the just-updated
hidden state; otherwise zero. -/
noncomputable def bIntTerm {n : ℕ} (p : TrainerParams n) (tr : BTraj) (k : ℕ) : ℝ :=
  if k ≤ tr.seqLen then
    -(1 / p.wt) * (u_theta p (bH p tr (k + 1)) 0 - u_theta p (bH p tr (k + 1)) (tr.tdelta k))
  else 0

/-- Step `k` entry of `self.loss_terms` (exp_broadcaster.py lines
282-288): when active, `-(1/(2·wt))·(u(0)² - u(Δ_k)²)`; otherwise zero. -/
noncomputable def bLossTerm {n : ℕ} (p : TrainerParams n) (tr : BTraj) (k : ℕ) : ℝ :=
  if k ≤ tr.seqLen then
    -(1 / (2 * p.wt)) *
      ((u_theta p (bH p tr (k + 1)) 0) ^ 2 - (u_theta p (bH p tr (k + 1)) (tr.tdelta k)) ^ 2)
  else 0

/-- The total per-trajectory log-likelihood actually built by
`ExpRecurrentTrainer.__init__` (exp_broadcaster.py lines 290-297):
`self.LL = tf.add_n(self.LL_log_terms) + tf.add_n(self.LL_log_terms)`
followed by `self.LL += (1/wt)·(u(0) - u(last_interval))` evaluated at the
post-loop hidden state. -/
noncomputable def bLL {n : ℕ} (p : TrainerParams n) (srcId : ℕ) (tr : BTraj)
    (maxEvents : ℕ) : ℝ :=
  (∑ k in Finset.range maxEvents, bLogTerm p srcId tr k) +
    (∑ k in Finset.range maxEvents, bLogTerm p srcId tr k) +
    (1 / p.wt) *
      (u_theta p (bH p tr maxEvents) 0 - u_theta p (bH p tr maxEvents) tr.lastInterval)

/-- The spec's total per-trajectory log-likelihood (spec section 4.4 and
claim C1), over the same per-step terms and the same terminal survival
term: sum of own-event log terms minus sum of survival integral terms
plus the terminal survival term. -/
noncomputable def bLL_claimed {n : ℕ} (p : TrainerParams n) (srcId : ℕ) (tr : BTraj)
    (maxEvents : ℕ) : ℝ :=
  (∑ k in Finset.range maxEvents, bLogTerm p srcId tr k) -
    (∑ k in Finset.range maxEvents, bIntTerm p tr k) +
    (1 / p.wt) *
      (u_theta p (bH p tr maxEvents) 0 - u_theta p (bH p tr maxEvents) tr.lastInterval)

/-- One step of the `ExpPredTrainer` hidden-state recurrence
(exp_broadcaster.py lines 670-684), which uses `tf.nn.relu` instead of
`tanh` and otherwise the same linear form. -/
noncomputable def pNext {n : ℕ} (p : TrainerParams n) (b : ℕ) (rank d : ℝ)
    (h : Fin n → ℝ) : Fin n → ℝ :=
  fun i =>
    max 0 (p.Wm b i + (∑ j, h j * p.Wh i j) + rank * p.Wr i + d * p.Wt i + p.Bh i)

/-- Hidden state of the `ExpPredTrainer` unrolled loop after `k`
iterations (exp_broadcaster.py lines 669-684), same inclusive
`evt_idx <= seq_len` gating as the other trainer. -/
noncomputable def pH {n : ℕ} (p : TrainerParams n) (tr : BTraj) : ℕ → Fin n → ℝ
  | 0 => fun _ => 0
  | k + 1 =>
    if k ≤ tr.seqLen then pNext p (tr.bIdx k) (tr.rank k) (tr.tdelta k) (pH p tr k)
    else fun _ => 0

/-- Step `k` quadratic-loss contribution accumulated by `ExpPredTrainer`
(exp_broadcaster.py lines 701-706). -/
noncomputable def pLossTerm {n : ℕ} (p : TrainerParams n) (tr : BTraj) (k : ℕ) : ℝ :=
  if k ≤ tr.seqLen then
    -(1 / (2 * p.wt)) *
      ((u_theta p (pH p tr (k + 1)) 0) ^ 2 - (u_theta p (pH p tr (k + 1)) (tr.tdelta k)) ^ 2)
  else 0

/-- The total per-trajectory loss actually built by
`ExpPredTrainer.__init__` (exp_broadcaster.py lines 701-715): the per-step
sum plus the terminal term
`-(1/(2·wt))·(u(0)² - last_interval²)` — note the source squares
`self.tf_batch_last_interval` itself, and no `q/2` factor is ever
applied. -/
noncomputable def predLoss {n : ℕ} (p : TrainerParams n) (tr : BTraj)
    (maxEvents : ℕ) : ℝ :=
  (∑ k in Finset.range maxEvents, pLossTerm p tr k) +
    -(1 / (2 * p.wt)) *
      ((u_theta p (pH p tr maxEvents) 0) ^ 2 - tr.lastInterval ^ 2)

/-- The spec's per-trajectory loss before the fixed `q/2` scaling (spec
section 4.4 and claim C5): per-step quadratic terms plus the terminal
quadratic term computed from `last_interval`, i.e. with
`u(last_interval)²` rather than `last_interval²`.  The claimed total is
`(q/2)` times this quantity. -/
noncomputable def predLossBase_claimed {n : ℕ} (p : TrainerParams n) (tr : BTraj)
    (maxEvents : ℕ) : ℝ :=
  (∑ k in Finset.range maxEvents, pLossTerm p tr k) +
    -(1 / (2 * p.wt)) *
      ((u_theta p (pH p tr maxEvents) 0) ^ 2 -
        (u_theta p (pH p tr maxEvents) tr.lastInterval) ^ 2)

/-- Concrete one-dimensional parameter set used as a test input: all
weight matrices zero, `wt = -1`, `bt = 1`.  Under these parameters every
hidden state is `tanh 0 = 0` (resp. `relu 0 = 0`) and
`u(δ) = exp(1 - δ)`. -/
noncomputable def pUnit : TrainerParams 1 where
  Wm := fun _ _ => 0
  Wh := fun _ _ => 0
  Wr := fun _ => 0
  Wt := fun _ => 0
  Bh := fun _ => 0
  vt := fun _ => 0
  wt := -1
  bt := 1

/-- Concrete trajectory for claim C1: one event (embedded index 0,
the agent's own) with time delta 1, `last_interval = 1`. -/
noncomputable def trC1 : BTraj where
  seqLen := 1
  bIdx := fun _ => 0
  rank := fun _ => 0
  tdelta := fun k => if k = 0 then 1 else 0
  lastInterval := 1

/-- Concrete trajectory with one event at time delta 0 and zero padding
afterwards (`get_feed_dict` pads inactive positions with zeros). -/
noncomputable def trPad : BTraj where
  seqLen := 1
  bIdx := fun _ => 0
  rank := fun _ => 0
  tdelta := fun _ => 0
  lastInterval := 1

/-- Concrete empty trajectory (no events) with `last_interval = 0`,
used for claim C5. -/
noncomputable def trC5 : BTraj where
  seqLen := 0
  bIdx := fun _ => 0
  rank := fun _ => 0
  tdelta := fun _ => 0
  lastInterval := 0

/-- State threaded through the `Scenario.run` episode loop
(exp_teacher.py lines 131-157): the current absolute event time `t`, the
`last_time` bookkeeping field, and the recorded `time_deltas`.
Floating-point times are embedded as exact rationals. -/
structure RunState where
  t : ℚ
  lastTime : ℚ
  timeDeltas : List ℚ

/-- The `while idx < max_events and t_next < self.T` loop of
`Scenario.run` (exp_teacher.py lines 139-157), with the sampled candidate
times supplied as the input stream `samples` (the `k`-th call of
`generate_sample` returns `samples k`; the sampler itself lives in the
external `exp_sampler` module).  Each iteration records
`time_delta = t_next - t`, then sets `last_time = t` BEFORE advancing
`t = t_next`, exactly as the source does. -/
def scenarioRunAux (samples : ℕ → ℚ) (T : ℚ) : ℕ → ℕ → RunState → RunState
  | 0, _, st => st
  | fuel + 1, k, st =>
    if samples k < T then
      scenarioRunAux samples T fuel (k + 1)
        { t := samples k
          lastTime := st.t
          timeDeltas := st.timeDeltas ++ [samples k - st.t] }
    else st

/-- `Scenario.run` (exp_teacher.py lines 131-157) from the initial state
`t = 0`, `last_time = -1` (set in `Scenario.__init__`, line 72) and no
recorded deltas, running for at most `maxEvents` events. -/
def scenarioRun (samples : ℕ → ℚ) (T : ℚ) (maxEvents : ℕ) : RunState :=
  scenarioRunAux samples T maxEvents 0 { t := 0, lastTime := -1, timeDeltas := [] }

/-- `Scenario.get_last_interval` (exp_teacher.py lines 95-97):
`self.T - self.last_time`. -/
def get_last_interval (T : ℚ) (st : RunState) : ℚ :=
  T - st.lastTime

/-- Candidate event-time stream for the claim C4 failing input: proposes
times 2, 7, 12, ... so that with horizon `T = 10` exactly two events (at
times 2 and 7) are accepted. -/
def c4samples : ℕ → ℚ :=
  fun k => 2 + 5 * k

/-- Lower clamp bound `1e-6` of `Student.review` (exp_teacher.py line 42). -/
def nsMin : ℚ := 1 / 1000000

/-- Upper clamp bound `1e2` of `Student.review` (exp_teacher.py line 42). -/
def nsMax : ℚ := 100

/-- The clamp `min(max(1e-6, x), 1e2)` applied by `Student.review`
(exp_teacher.py line 42). -/
def clampNs (x : ℚ) : ℚ :=
  min (max nsMin x) nsMax

/-- Effect of one `Student.review` call (exp_teacher.py lines 34-45) on
the memory-decay rates `ns`: the reviewed item is multiplied by
`1 - alpha` on recall and `1 + beta` on forgetting, then clamped; other
items are untouched.  The recall outcome (drawn from the student's RNG in
the source) is supplied as the Boolean `recall`. -/
def reviewNs (alphas betas ns : ℕ → ℚ) (item : ℕ) (didRecall : Bool) : ℕ → ℚ :=
  fun i =>
    if i = item then
      clampNs (if didRecall then ns item * (1 - alphas item) else ns item * (1 + betas item))
    else ns i

/-- A sequence of `Student.review` calls, each given by the reviewed item
and its recall outcome. -/
def reviewSeqNs (alphas betas : ℕ → ℚ) (ns : ℕ → ℚ) : List (ℕ × Bool) → ℕ → ℚ
  | [] => ns
  | (item, r) :: rest => reviewSeqNs alphas betas (reviewNs alphas betas ns item r) rest

/-- The combined per-parameter gradient built by
`ExpRecurrentTeacher.__init__` (exp_teacher.py lines 466-508) for one
parameter tensor whose elements are indexed by `ι`: with
`avg_reward = mean(rewards) + mean(loss)` when the advantage formulation
is enabled and `0` otherwise, and `coef_i = R_i + L_i - avg_reward`, the
output is `reduce_mean(LL_grad · tile(coef) + loss_grad)` over the batch
dimension — elementwise, `(∑ i, LLg i j · coef i + Lg i j) / B`. -/
noncomputable def combinedGrad (B : ℕ) (withAdvantage : Bool) (R L : Fin B → ℝ)
    {ι : Type} (LLg Lg : Fin B → ι → ℝ) : ι → ℝ :=
  let avgReward : ℝ :=
    if withAdvantage then (∑ i, R i) / B + (∑ i, L i) / B else 0
  fun j => (∑ i, (LLg i j * (R i + L i - avgReward) + Lg i j)) / B

/-- The spec's baseline (spec section 4.5 and claim C3):
`b = mean_i(R_i) + mean_i(L_i)` when the advantage formulation is
enabled, else `0`. -/
noncomputable def specBaseline (B : ℕ) (withAdvantage : Bool) (R L : Fin B → ℝ) : ℝ :=
  if withAdvantage then (∑ i, R i) / B + (∑ i, L i) / B else 0

/-- The spec's per-parameter gradient (spec section 4.5 and claim C3):
`grad(x)_j = mean_i((R_i + L_i - b) · ∂LL_i/∂x_j + ∂L_i/∂x_j)`, the
coefficient broadcast over all tensor element indices `j`. -/
noncomputable def specGrad (B : ℕ) (withAdvantage : Bool) (R L : Fin B → ℝ)
    {ι : Type} (LLg Lg : Fin B → ι → ℝ) : ι → ℝ :=
  fun j =>
    (∑ i, ((R i + L i - specBaseline B withAdvantage R L) * LLg i j + Lg i j)) / B

/-- Global L2 norm of a flattened gradient bundle. -/
noncomputable def globalNorm {k : ℕ} (g : Fin k → ℝ) : ℝ :=
  Real.sqrt (∑ i, g i ^ 2)

/-- Modelled from the spec: the gradient clipping applied at
exp_teacher.py lines 510-517 is the external library operation
`tf.clip_by_global_norm`, whose documented behaviour (and the behaviour
spec section 4.5 requires) is to scale every component of the bundle by
`clip_norm / max(global_norm, clip_norm)` and to report the pre-clip
global norm unchanged. -/
noncomputable def clipByGlobalNorm {k : ℕ} (clipNorm : ℝ) (g : Fin k → ℝ) :
    (Fin k → ℝ) × ℝ :=
  (fun i => g i * (clipNorm / max (globalNorm g) clipNorm), globalNorm g)

/-- Concrete gradient bundle `(3, 4)` with global norm `5`, used as a
clipping test input. -/
noncomputable def g34 : Fin 2 → ℝ := ![3, 4]

/-- Modelled from the spec: `ExpCDFSampler.generate_sample`
(tpprl/exp_sampler.py, imported at exp_broadcaster.py line 6 but not part
of the sources), per spec section 4.2: inverse-CDF sampling of
`u(t) = exp(c + w·(t - t_min))` at uniform draw `U`, via the closed form
`t = t_min + log(1 - (w/u(t_min))·log(1 - U)) / w` with
`u(t_min) = exp(c)`. -/
noncomputable def generateSample (tMin c w U : ℝ) : ℝ :=
  tMin + Real.log (1 - (w / Real.exp c) * Real.log (1 - U)) / w

/-- An event delivered to the broadcaster by the simulation environment. -/
structure BEvent where
  srcId : ℕ
  curTime : ℝ
  timeDelta : ℝ

/-- `ExpRecurrentBroadcaster.get_next_interval` (exp_broadcaster.py lines
97-118), with the two sampler-produced times passed in explicitly: on the
first call (`event is None`) it returns `generate_sample()`; otherwise it
computes `next_delta = next_post_time - last_self_event_time` and the
`assert next_delta >= 0` is embedded as returning `none` (fatal abort)
when the assertion fails, `some next_delta` otherwise — the value itself
is never altered. -/
noncomputable def getNextInterval (tMin c w U : ℝ) (event : Option BEvent)
    (nextPostTime lastSelfEventTime : ℝ) : Option ℝ :=
  match event with
  | none => some (generateSample tMin c w U)
  | some _ =>
    if nextPostTime - lastSelfEventTime < 0 then none
    else some (nextPostTime - lastSelfEventTime)

/-- The error raised by `ExpRecurrentTeacher.restore` when a specific
epoch is requested but absent (exp_teacher.py lines 638-640): a
`FileNotFoundError` naming the missing epoch. -/
inductive RestoreError where
  | notFound (epoch : ℕ)
deriving DecidableEq

/-- The checkpoint filename suffix `'-{epoch}'` built at
exp_teacher.py line 635.  Paths are embedded as character lists. -/
def epochSuffix (epoch : ℕ) : List Char :=
  ('-') :: Nat.toDigits 10 epoch

/-- The `epoch_to_recover` branch of `ExpRecurrentTeacher.restore`
(exp_teacher.py lines 634-641): filter the saved checkpoint paths for
those ending in `'-{epoch}'`; if fewer than one remains, raise the
distinct not-found error, otherwise restore `file[0]`. -/
def restoreByEpoch (paths : List (List Char)) (epoch : ℕ) :
    Except RestoreError (List Char) :=
  match paths.filter (fun p => (epochSuffix epoch).isSuffixOf p) with
  | [] => Except.error (RestoreError.notFound epoch)
  | f :: _ => Except.ok f

theorem u_theta_pUnit (h : Fin 1 → ℝ) (d : ℝ) :
    u_theta pUnit h d = Real.exp (1 - d) := by
  unfold u_theta pUnit
  simp only [mul_zero, Finset.sum_const_zero]
  congr 1
  ring

theorem bH_pUnit (tr : BTraj) : ∀ k, bH pUnit tr k = fun _ => 0 := by
  intro k
  induction k with
  | zero => rfl
  | succ k ih =>
    unfold bH hNext
    rw [ih]
    split
    · funext i
      simp [pUnit, Real.tanh_zero]
    · rfl

theorem pH_pUnit (tr : BTraj) : ∀ k, pH pUnit tr k = fun _ => 0 := by
  intro k
  induction k with
  | zero => rfl
  | succ k ih =>
    unfold pH pNext
    rw [ih]
    split
    · funext i
      simp [pUnit]
    · rfl

/-- C1: the claim states that each trajectory's total log-likelihood is
the sum of own-event log terms minus the sum of survival integral terms
plus the terminal survival term.  The graph built by
`ExpRecurrentTrainer.__init__` (exp_broadcaster.py line 290) instead adds
the log-term sum to itself and never subtracts the integral terms, so on
a one-event trajectory with nonzero integral term the two quantities
differ. -/
theorem c1_broadcaster_LL_formula_violated :
    bLL pUnit 0 trC1 1 ≠ bLL_claimed pUnit 0 trC1 1 := by
  have hlog : bLogTerm pUnit 0 trC1 0 = 0 := by
    simp [bLogTerm, trC1, u_theta_pUnit, Real.log_exp]
  have hint : bIntTerm pUnit trC1 0 = Real.exp 1 - 1 := by
    simp only [bIntTerm, u_theta_pUnit]
    rw [if_pos (by norm_num [trC1])]
    norm_num [trC1, pUnit, Real.exp_zero]
  have he : (1 : ℝ) < Real.exp 1 := by
    have := Real.exp_one_gt_d9
    linarith
  simp only [bLL, bLL_claimed, Finset.sum_range_one, hlog, hint]
  intro h
  linarith

/-- C2: the claim states that every step of index at least `seq_len`
contributes exactly zero to each accumulated sum, so that appending
zero-padded steps never changes a trajectory's totals.  The broadcaster
graph masks with the inclusive condition `evt_idx <= seq_len`
(exp_broadcaster.py lines 244-288), so the first padded step is active:
on a one-event trajectory it contributes a nonzero log term, and growing
the unrolled loop from 1 to 2 padded steps changes the accumulated
log-likelihood. -/
theorem c2_broadcaster_masking_violated :
    trPad.seqLen ≤ 1 ∧ trPad.bIdx 1 = 0 ∧ trPad.tdelta 1 = 0 ∧
    bLogTerm pUnit 0 trPad 1 ≠ 0 ∧
    bLL pUnit 0 trPad 2 ≠ bLL pUnit 0 trPad 1 := by
  have hlog : ∀ k, k ≤ 1 → bLogTerm pUnit 0 trPad k = 1 := by
    intro k hk
    simp [bLogTerm, trPad, u_theta_pUnit, Real.log_exp, hk]
  refine ⟨le_refl 1, rfl, rfl, ?_, ?_⟩
  · rw [hlog 1 (le_refl 1)]
    norm_num
  · simp only [bLL, Finset.sum_range_succ, Finset.sum_range_one,
      hlog 0 (by norm_num), hlog 1 (le_refl 1), bH_pUnit]
    intro h
    linarith

/-- C5: the claim states that each trajectory's total loss is `(q/2)`
times the sum of per-step quadratic terms plus a terminal quadratic term
computed from `last_interval`.  `ExpPredTrainer.__init__`
(exp_broadcaster.py lines 713-715) squares `last_interval` itself instead
of `u(last_interval)` and applies no `q/2` factor: on an empty trajectory
with `last_interval = 0` the claimed total is `(q/2)·0 = 0` for every
scalar `q`, yet the graph's loss is `exp(1)²/2 ≠ 0`. -/
theorem c5_pred_trainer_loss_violated :
    predLossBase_claimed pUnit trC5 1 = 0 ∧ predLoss pUnit trC5 1 ≠ 0 := by
  have hpl : pLossTerm pUnit trC5 0 = 0 := by
    simp [pLossTerm, trC5, u_theta_pUnit]
  have h0 : trC5.lastInterval = 0 := rfl
  constructor
  · simp [predLossBase_claimed, Finset.sum_range_one, hpl, h0]
  · simp only [predLoss, Finset.sum_range_one, hpl, h0, u_theta_pUnit]
    have hw : pUnit.wt = -1 := rfl
    rw [hw]
    norm_num

/-- C6: the claim states that a step's log-intensity term is included
exactly when the step's event belongs to the trained agent.  The gate at
exp_broadcaster.py lines 266-272 compares the embedded broadcaster index
against the raw `sim_opts.src_id`, while `src_embed_map`
(lines 130-132) embeds the agent's own events as index `0`: with
`src_id = 1`, an own event (embedded index 0) has log-intensity `1 ≠ 0`
yet its log term is dropped. -/
theorem c6_own_event_gating_violated :
    trPad.bIdx 0 = 0 ∧
    Real.log (u_theta pUnit (bH pUnit trPad 1) (trPad.tdelta 0)) = 1 ∧
    bLogTerm pUnit 1 trPad 0 = 0 := by
  refine ⟨rfl, ?_, ?_⟩
  · simp [u_theta_pUnit, trPad, Real.log_exp]
  · simp [bLogTerm, trPad]

/-- C4: the claim states that the recorded time deltas of a completed
trajectory plus its `last_interval` sum exactly to the horizon `T`.
`Scenario.run` (exp_teacher.py lines 131-157) sets `self.last_time = t`
before advancing `t = t_next`, so after the loop `last_time` holds the
second-to-last event time: with horizon `T = 10` and accepted events at
times 2 and 7, the recorded deltas are `[2, 5]` but
`get_last_interval = 10 - 2 = 8`, and the total is `15 ≠ 10`. -/
theorem c4_horizon_accounting_violated :
    (scenarioRun c4samples 10 5).timeDeltas = [2, 5] ∧
    (scenarioRun c4samples 10 5).timeDeltas.sum +
      get_last_interval 10 (scenarioRun c4samples 10 5) ≠ 10 := by
  have h : scenarioRun c4samples 10 5 =
      { t := 7, lastTime := 2, timeDeltas := [2, 5] } := by
    show scenarioRunAux c4samples 10 (4 + 1) 0
        { t := 0, lastTime := -1, timeDeltas := [] } = _
    rw [scenarioRunAux, if_pos (by norm_num [c4samples])]
    show scenarioRunAux c4samples 10 (3 + 1) 1 _ = _
    rw [scenarioRunAux, if_pos (by norm_num [c4samples])]
    show scenarioRunAux c4samples 10 (2 + 1) 2 _ = _
    rw [scenarioRunAux, if_neg (by norm_num [c4samples])]
    norm_num [c4samples]
  rw [h]
  norm_num [get_last_interval]

theorem clampNs_mem (x : ℚ) : nsMin ≤ clampNs x ∧ clampNs x ≤ nsMax := by
  unfold clampNs
  refine ⟨le_min (le_max_left _ _) ?_, min_le_right _ _⟩
  unfold nsMin nsMax
  norm_num

theorem reviewNs_mem (alphas betas ns : ℕ → ℚ) (item : ℕ) (r : Bool)
    (h0 : ∀ i, nsMin ≤ ns i ∧ ns i ≤ nsMax) :
    ∀ i, nsMin ≤ reviewNs alphas betas ns item r i ∧
      reviewNs alphas betas ns item r i ≤ nsMax := by
  intro i
  unfold reviewNs
  by_cases hi : i = item
  · simp only [hi, if_pos rfl]
    exact clampNs_mem _
  · simp only [if_neg hi]
    exact h0 i

theorem reviewSeqNs_mem (alphas betas : ℕ → ℚ) (l : List (ℕ × Bool)) :
    ∀ ns : ℕ → ℚ, (∀ i, nsMin ≤ ns i ∧ ns i ≤ nsMax) →
      ∀ i, nsMin ≤ reviewSeqNs alphas betas ns l i ∧
        reviewSeqNs alphas betas ns l i ≤ nsMax := by
  induction l with
  | nil => intro ns h0 i; exact h0 i
  | cons p rest ih =>
    intro ns h0
    exact ih _ (reviewNs_mem alphas betas ns p.1 p.2 h0)

/-- C10: after every `Student.review` call the reviewed item's
memory-decay rate is clamped into `[1e-6, 1e2]`
(exp_teacher.py line 42) — unconditionally for the reviewed item — and
consequently, when all initial rates lie in that interval (the `Scenario`
constructor starts them at 1), every item's rate stays in the interval
under any sequence of reviews. -/
theorem c10_review_rate_clamped (alphas betas ns : ℕ → ℚ) (item : ℕ) (r : Bool)
    (l : List (ℕ × Bool)) (h0 : ∀ i, nsMin ≤ ns i ∧ ns i ≤ nsMax) :
    (nsMin ≤ reviewNs alphas betas ns item r item ∧
      reviewNs alphas betas ns item r item ≤ nsMax) ∧
    (∀ i, nsMin ≤ reviewSeqNs alphas betas ns l i ∧
      reviewSeqNs alphas betas ns l i ≤ nsMax) := by
  constructor
  · have := reviewNs_mem alphas betas ns item r h0 item
    simpa using this
  · exact reviewSeqNs_mem alphas betas l ns h0

theorem c10_review_rate_clamped_witness :
    (∀ i : ℕ, nsMin ≤ (fun _ : ℕ => (1 : ℚ)) i ∧ (fun _ : ℕ => (1 : ℚ)) i ≤ nsMax) ∧
    ((nsMin ≤ reviewNs (fun _ => 0) (fun _ => 0) (fun _ => 1) 0 true 0 ∧
        reviewNs (fun _ => 0) (fun _ => 0) (fun _ => 1) 0 true 0 ≤ nsMax) ∧
      (∀ i, nsMin ≤ reviewSeqNs (fun _ => 0) (fun _ => 0) (fun _ => 1) [(0, true)] i ∧
        reviewSeqNs (fun _ => 0) (fun _ => 0) (fun _ => 1) [(0, true)] i ≤ nsMax)) :=
  ⟨fun _ => by norm_num [nsMin, nsMax],
    c10_review_rate_clamped (fun _ => 0) (fun _ => 0) (fun _ => 1) 0 true
      [(0, true)] (fun _ => by norm_num [nsMin, nsMax])⟩

/-- C3: the combined per-parameter gradient built at
exp_teacher.py lines 466-508 equals the spec's formula
`grad(x) = mean_i(coef_i · ∂LL_i/∂x + ∂L_i/∂x)` with
`coef_i = R_i + L_i - b` and baseline `b = mean(R) + mean(L)` when the
advantage formulation is enabled and `0` otherwise, the coefficient
broadcast over all tensor element indices. -/
theorem c3_gradient_combiner_matches_spec (B : ℕ) (withAdvantage : Bool)
    (R L : Fin B → ℝ) {ι : Type} (LLg Lg : Fin B → ι → ℝ) :
    combinedGrad B withAdvantage R L LLg Lg = specGrad B withAdvantage R L LLg Lg := by
  funext j
  unfold combinedGrad specGrad specBaseline
  congr 1
  apply Finset.sum_congr rfl
  intro i _
  ring

theorem globalNorm_mul_const {k : ℕ} (g : Fin k → ℝ) (a : ℝ) :
    globalNorm (fun i => g i * a) = globalNorm g * |a| := by
  unfold globalNorm
  have h1 : (∑ i, (g i * a) ^ 2) = (∑ i, g i ^ 2) * a ^ 2 := by
    simp only [mul_pow]
    rw [← Finset.sum_mul]
  rw [h1, Real.sqrt_mul (Finset.sum_nonneg fun i _ => sq_nonneg _),
    Real.sqrt_sq_eq_abs]

/-- C7: the clipping step of exp_teacher.py lines 510-517 reports the
pre-clip global norm; when that norm exceeds `clip_norm` every component
of the bundle is scaled by the common factor `clip_norm / norm`, making
the clipped bundle's global norm exactly `clip_norm`; and when the norm
is within the bound the bundle is returned unchanged. -/
theorem c7_clip_by_global_norm {k : ℕ} (clipNorm : ℝ) (g : Fin k → ℝ)
    (hc : 0 < clipNorm) :
    (clipByGlobalNorm clipNorm g).2 = globalNorm g ∧
    (clipNorm < globalNorm g →
      globalNorm (clipByGlobalNorm clipNorm g).1 = clipNorm ∧
      ∀ i, (clipByGlobalNorm clipNorm g).1 i = clipNorm / globalNorm g * g i) ∧
    (globalNorm g ≤ clipNorm → (clipByGlobalNorm clipNorm g).1 = g) := by
  refine ⟨rfl, ?_, ?_⟩
  · intro hlt
    have hg0 : 0 < globalNorm g := lt_trans hc hlt
    have hmax : max (globalNorm g) clipNorm = globalNorm g := max_eq_left hlt.le
    constructor
    · show globalNorm (fun i => g i * (clipNorm / max (globalNorm g) clipNorm)) = clipNorm
      rw [hmax, globalNorm_mul_const, abs_of_pos (div_pos hc hg0), mul_comm,
        div_mul_cancel₀ _ (ne_of_gt hg0)]
    · intro i
      show g i * (clipNorm / max (globalNorm g) clipNorm) = clipNorm / globalNorm g * g i
      rw [hmax, mul_comm]
  · intro hle
    have hmax : max (globalNorm g) clipNorm = clipNorm := max_eq_right hle
    funext i
    show g i * (clipNorm / max (globalNorm g) clipNorm) = g i
    rw [hmax, div_self (ne_of_gt hc), mul_one]

theorem c7_clip_by_global_norm_witness :
    (0 : ℝ) < 1 ∧
    ((clipByGlobalNorm 1 g34).2 = globalNorm g34 ∧
      ((1 : ℝ) < globalNorm g34 →
        globalNorm (clipByGlobalNorm 1 g34).1 = 1 ∧
        ∀ i, (clipByGlobalNorm 1 g34).1 i = 1 / globalNorm g34 * g34 i) ∧
      (globalNorm g34 ≤ 1 → (clipByGlobalNorm 1 g34).1 = g34)) :=
  ⟨one_pos, c7_clip_by_global_norm 1 g34 one_pos⟩

theorem generateSample_ge (tMin c w U : ℝ) (hw : w < 0) (hU0 : 0 ≤ U) (hU1 : U < 1)
    (hD : 0 < 1 - (w / Real.exp c) * Real.log (1 - U)) :
    tMin ≤ generateSample tMin c w U := by
  unfold generateSample
  have hL : Real.log (1 - U) ≤ 0 := Real.log_nonpos (by linarith) (by linarith)
  have hwu : w / Real.exp c < 0 := div_neg_of_neg_of_pos hw (Real.exp_pos c)
  have hprod : 0 ≤ (w / Real.exp c) * Real.log (1 - U) :=
    mul_nonneg_iff.mpr (Or.inr ⟨hwu.le, hL⟩)
  have hD1 : 1 - (w / Real.exp c) * Real.log (1 - U) ≤ 1 := by linarith
  have hlog : Real.log (1 - (w / Real.exp c) * Real.log (1 - U)) ≤ 0 :=
    Real.log_nonpos hD.le hD1
  have hdiv : 0 ≤ Real.log (1 - (w / Real.exp c) * Real.log (1 - U)) / w :=
    div_nonneg_iff.mpr (Or.inr ⟨hlog, hw.le⟩)
  linarith

/-- C8: whenever `get_next_interval` returns a value (rather than
aborting on its assertion), that value is non-negative — on the first
call it is the sampler's draw, which under a decaying intensity
(`w < 0`) never precedes `t_min ≥ 0`; on later calls the assertion
guards `next_delta` — and for an actual event the returned interval is
exactly `next_post_time - last_self_event_time`, never a clamped
value. -/
theorem c8_get_next_interval_nonneg (tMin c w U nextPostTime lastSelfEventTime : ℝ)
    (event : Option BEvent) (d : ℝ)
    (hw : w < 0) (hU0 : 0 ≤ U) (hU1 : U < 1) (htMin : 0 ≤ tMin)
    (hD : 0 < 1 - (w / Real.exp c) * Real.log (1 - U))
    (hres : getNextInterval tMin c w U event nextPostTime lastSelfEventTime = some d) :
    0 ≤ d ∧ ∀ e, event = some e → d = nextPostTime - lastSelfEventTime := by
  cases event with
  | none =>
    simp only [getNextInterval, Option.some.injEq] at hres
    refine ⟨?_, ?_⟩
    · have hge := generateSample_ge tMin c w U hw hU0 hU1 hD
      rw [hres] at hge
      linarith
    · intro e he
      exact Option.noConfusion he
  | some e0 =>
    simp only [getNextInterval] at hres
    by_cases hneg : nextPostTime - lastSelfEventTime < 0
    · rw [if_pos hneg] at hres
      exact Option.noConfusion hres
    · rw [if_neg hneg] at hres
      have hd := Option.some.inj hres
      push_neg at hneg
      exact ⟨hd ▸ hneg, fun e he => hd.symm⟩

theorem c8_get_next_interval_nonneg_witness :
    ((-1 : ℝ) < 0 ∧ (0 : ℝ) ≤ 0 ∧ (0 : ℝ) < 1 ∧ (0 : ℝ) ≤ 0 ∧
      (0 : ℝ) < 1 - ((-1) / Real.exp 0) * Real.log (1 - 0) ∧
      getNextInterval 0 0 (-1) 0 (some ⟨1, 5, 2⟩) 5 2 = some 3) ∧
    (0 ≤ (3 : ℝ) ∧
      ∀ e, (some (⟨1, 5, 2⟩ : BEvent) : Option BEvent) = some e →
        (3 : ℝ) = 5 - 2) := by
  have hD : (0 : ℝ) < 1 - ((-1) / Real.exp 0) * Real.log (1 - 0) := by
    rw [show (1 : ℝ) - 0 = 1 by norm_num, Real.log_one]
    norm_num
  have hres : getNextInterval 0 0 (-1) 0 (some ⟨1, 5, 2⟩) 5 2 = some 3 := by
    unfold getNextInterval
    rw [if_neg (by norm_num)]
    norm_num
  exact ⟨⟨by norm_num, by norm_num, by norm_num, by norm_num, hD, hres⟩,
    c8_get_next_interval_nonneg 0 0 (-1) 0 5 2 (some ⟨1, 5, 2⟩) 3 (by norm_num)
      (by norm_num) (by norm_num) (by norm_num) hD hres⟩

/-- C9: `restore` with a requested `epoch_to_recover` raises the distinct
not-found error (naming the requested epoch, and the only error it can
raise) exactly when no saved checkpoint path ends in `'-{epoch}'`, and
restores a matching checkpoint whenever one exists. -/
theorem c9_restore_by_epoch (paths : List (List Char)) (epoch : ℕ) :
    ((∃ err, restoreByEpoch paths epoch = Except.error err) ↔
      restoreByEpoch paths epoch = Except.error (RestoreError.notFound epoch)) ∧
    (restoreByEpoch paths epoch = Except.error (RestoreError.notFound epoch) ↔
      ∀ p ∈ paths, (epochSuffix epoch).isSuffixOf p = false) ∧
    ((∃ p ∈ paths, (epochSuffix epoch).isSuffixOf p = true) →
      ∃ f ∈ paths, (epochSuffix epoch).isSuffixOf f = true ∧
        restoreByEpoch paths epoch = Except.ok f) := by
  cases hf : paths.filter (fun p => (epochSuffix epoch).isSuffixOf p) with
  | nil =>
    have hre : restoreByEpoch paths epoch =
        Except.error (RestoreError.notFound epoch) := by
      unfold restoreByEpoch
      rw [hf]
    refine ⟨?_, ?_, ?_⟩
    · rw [hre]
      exact ⟨fun _ => rfl, fun _ => ⟨_, rfl⟩⟩
    · rw [hre]
      constructor
      · intro _ p hp
        have h := List.filter_eq_nil_iff.mp hf p hp
        simp only [Bool.not_eq_true] at h
        exact h
      · intro _
        rfl
    · rintro ⟨p, hp, hsuf⟩
      exfalso
      have hmem : p ∈ paths.filter (fun q => (epochSuffix epoch).isSuffixOf q) :=
        List.mem_filter.mpr ⟨hp, hsuf⟩
      rw [hf] at hmem
      exact List.not_mem_nil p hmem
  | cons f rest =>
    have hre : restoreByEpoch paths epoch = Except.ok f := by
      unfold restoreByEpoch
      rw [hf]
    have hfmem : f ∈ paths.filter (fun q => (epochSuffix epoch).isSuffixOf q) := by
      rw [hf]
      exact List.mem_cons_self _ _
    have hf1 := (List.mem_filter.mp hfmem).1
    have hf2 := (List.mem_filter.mp hfmem).2
    refine ⟨?_, ?_, ?_⟩
    · rw [hre]
      constructor
      · rintro ⟨err, herr⟩
        exact Except.noConfusion herr
      · intro h
        exact Except.noConfusion h
    · rw [hre]
      constructor
      · intro h
        exact Except.noConfusion h
      · intro hall
        have hcontra := hall f hf1
        rw [hf2] at hcontra
        exact Bool.noConfusion hcontra
    · intro _
      exact ⟨f, hf1, hf2, hre⟩

theorem c9_restore_by_epoch_witness :
    (∃ p ∈ [(String.toList ("ck-1")), (String.toList ("ck-2"))],
        (epochSuffix 2).isSuffixOf p = true) ∧
    ∃ f ∈ [(String.toList ("ck-1")), (String.toList ("ck-2"))],
      (epochSuffix 2).isSuffixOf f = true ∧
        restoreByEpoch [(String.toList ("ck-1")), (String.toList ("ck-2"))] 2 =
          Except.ok f :=
  ⟨by decide, (c9_restore_by_epoch _ 2).2.2 (by decide)⟩

end Tpprl
